import Mathlib

set_option maxHeartbeats 1000000

/-!
Shallow embedding of `Kaos_AugmentRequirements.js` (RMMV plugin by Audorn).

JavaScript strings are modelled as `List Char`; the plugin's mutable item
objects become records threaded explicitly through the operations; the
party-inventory, slot-occupancy and rejection-window collaborators supplied by
the host engine and the YEP prerequisite plugins are modelled from the spec's
description of their interfaces.  Code that dereferences a null augment is
modelled with `Except`, the error value standing for the thrown `TypeError`.
-/

/-- JavaScript strings, modelled as lists of characters. -/
abbrev Str := List Char

/-- JS `String.prototype.toUpperCase`, applied characterwise (the plugin only
uppercases ASCII tag text). -/
def upperStr (s : Str) : Str := s.map Char.toUpper

/-- The JS regular-expression word-character class `\w`, i.e. `[A-Za-z0-9_]`. -/
def isWordChar (c : Char) : Bool :=
  (decide ('A' ≤ c) && decide (c ≤ 'Z')) ||
  (decide ('a' ≤ c) && decide (c ≤ 'z')) ||
  (decide ('0' ≤ c) && decide (c ≤ '9')) || (c == '_')

/-- Splits a string around its first `'*'`: the pair of the part before and
the part after.  When no `'*'` occurs the whole string is the first component. -/
def splitAtFirstStar : Str → Str × Str
  | [] => ([], [])
  | c :: rest =>
    if c = '*' then ([], rest)
    else (c :: (splitAtFirstStar rest).1, (splitAtFirstStar rest).2)

/-- JS `s.replace("*", "")`: removes the first `'*'` of the string, if any. -/
def removeFirstStar (s : Str) : Str :=
  (splitAtFirstStar s).1 ++ (splitAtFirstStar s).2

/-- The four regular-expression shapes the matcher builds from a pattern:
`"^P$"`, `"P$"`, `"^P"` and `"^A\w*B$"` (source lines 305-324, 497-521). -/
inductive TagPattern where
  | exact (p : Str)
  | endsW (p : Str)
  | startsW (p : Str)
  | mid (a b : Str)
deriving DecidableEq

/-- The regex construction shared by `baseHasReqs`, `baseHasGrants`,
`baseHasRejectString`, `hasTag` and `hasGrant`: an exact anchor by default; a
leading `'*'` keeps only the tail anchored at the end; a trailing `'*'` keeps
only the front anchored at the start; an inner `'*'` becomes `\w*` between the
two anchored parts (only the first `'*'` is rewritten, as JS `replace` does). -/
def patternOf (tag : Str) : TagPattern :=
  if '*' ∈ tag then
    if tag.head? = some '*' then TagPattern.endsW (removeFirstStar tag)
    else if tag.getLast? = some '*' then TagPattern.startsW (removeFirstStar tag)
    else TagPattern.mid (splitAtFirstStar tag).1 (splitAtFirstStar tag).2
  else TagPattern.exact tag

/-- Executable check for the `"^A\w*B$"` shape: the candidate carries `a` at
the front, `b` at the back, and only word characters in between. -/
def midMatchB (a b c : Str) : Bool :=
  a.isPrefixOf c && b.isSuffixOf c && decide (a.length + b.length ≤ c.length)
    && ((c.drop a.length).take (c.length - (a.length + b.length))).all isWordChar

/-- Semantics of the four regex shapes on a candidate string, for patterns
whose non-wildcard characters are regex literals (the plugin's tags are parsed
from `\w+` runs, so this covers the pattern domain the code produces). -/
def patMatches : TagPattern → Str → Bool
  | TagPattern.exact p, c => p == c
  | TagPattern.endsW p, c => p.isSuffixOf c
  | TagPattern.startsW p, c => p.isPrefixOf c
  | TagPattern.mid a b, c => midMatchB a b c

/-- One iteration of the matching loops: uppercase the pattern and the
candidate, build the regex, and test it (the `"i"` flag is redundant after the
uppercasing and is dropped). -/
def wildcardMatches (tag cand : Str) : Bool :=
  patMatches (patternOf (upperStr tag)) (upperStr cand)

namespace Kaos.Augment

/-- `Kaos.Augment.baseHasReqs` (lines 305-324): true on the first stored
requirement the pattern matches, false when none does. -/
def baseHasReqs (req : Str) (reqs : List Str) : Bool :=
  reqs.any (fun r => wildcardMatches req r)

end Kaos.Augment

-- DATA MODEL -----------------------------------------------------------------

/-- One cell of `augmentSlotItems`: the YEP prerequisite stores the string
`"none"` for an empty slot and `"item <id>"` for an occupied one; only those
two shapes are produced by the code paths modelled here. -/
inductive SlotEntry where
  | none
  | item (id : Nat)
deriving DecidableEq

/-- The augment-side fields this plugin reads: `augmentRequirements`,
`augmentGrantedTags` and `augmentRejectionString` (derived once from notetags),
plus the database id the slot entries refer back to. -/
structure Augment where
  id : Nat
  augmentRequirements : List Str
  augmentGrantedTags : List Str
  augmentRejectionString : Str
deriving DecidableEq

/-- The host-item fields this plugin reads and writes: the NeMV `tags` array
and the YEP `augmentSlotItems` occupancy array. -/
structure Host where
  tags : List Str
  augmentSlotItems : List SlotEntry
deriving DecidableEq

/-- The JS values `Kaos.Augment.hasTag` / `hasGrant` can return: a number
(the index) or a boolean. -/
inductive JsVal where
  | num (n : Nat)
  | bool (b : Bool)
deriving DecidableEq

/-- JS truthiness of the values above: `0` and `false` are falsy. -/
def jsTruthy : JsVal → Bool
  | JsVal.num n => decide (n ≠ 0)
  | JsVal.bool b => b

/-- Game state threaded through the lifecycle operations: the host item, the
party inventory (quantity per item id), and the rejection window (visibility
and current text). -/
structure GState where
  host : Host
  party : Nat → Int
  rejectionShown : Bool
  rejectionText : Str

namespace Kaos.Augment

/-- The `for` loop of `Kaos.Augment.hasTag`/`hasGrant` (lines 497-547):
`t0` is the position of the current candidate, `st` the accumulated
`(index, found)` pair; every matching candidate overwrites `index`. -/
def scanTagsFrom (tag : Str) : List Str → Nat → Nat × Bool → Nat × Bool
  | [], _, st => st
  | c :: rest, t0, st =>
    scanTagsFrom tag rest (t0 + 1) (if wildcardMatches tag c then (t0, true) else st)

/-- `Kaos.Augment.hasTag(item, tag, returnIndex)` (lines 497-521): scans
`item.tags`, remembering the index of the last match; returns the index as a
number when asked for and a match exists, otherwise the boolean flag. -/
def hasTag (item : Host) (tag : Str) (returnIndex : Bool) : JsVal :=
  let s := scanTagsFrom tag item.tags 0 (0, false)
  if s.2 && returnIndex then JsVal.num s.1 else JsVal.bool s.2

/-- `Kaos.Augment.hasGrant(item, grant, returnIndex)` (lines 523-547): the
same scan over the augment's `augmentGrantedTags`. -/
def hasGrant (aug : Augment) (grant : Str) (returnIndex : Bool) : JsVal :=
  let s := scanTagsFrom grant aug.augmentGrantedTags 0 (0, false)
  if s.2 && returnIndex then JsVal.num s.1 else JsVal.bool s.2

/-- `Kaos.Augment.removeTag` (lines 559-562): splices out the first
occurrence of the uppercased tag from `item.tags`. -/
def removeTag (item : Host) (tag : Str) : Host :=
  { item with tags := item.tags.erase (upperStr tag) }

/-- `Kaos.Augment.addTag` (lines 549-552): removes any existing occurrence of
the uppercased tag, then pushes it at the end. -/
def addTag (item : Host) (tag : Str) : Host :=
  let it := removeTag item (upperStr tag)
  { it with tags := it.tags ++ [upperStr tag] }

/-- `Kaos.Augment.addGrantedTags` (lines 554-557): `addTag` of
`"aug_" + grant` for every granted tag of the augment, in order. -/
def addGrantedTags (item : Host) (augment : Augment) : Host :=
  augment.augmentGrantedTags.foldl (fun it g => addTag it (("aug_".data) ++ g)) item

/-- The inner slot scan of `removeGrantedTags`: starting from the incoming
flag, the flag drops to `false` when some slot holds a different augment id
whose database entry grants the tag (`hasGrant` truthiness, line 572); it is
never raised back to `true`. -/
def otherGrantScan (db : Nat → Augment) (slots : List SlotEntry) (augId : Nat)
    (grant : Str) (flag : Bool) : Bool :=
  slots.foldl
    (fun f s =>
      match s with
      | SlotEntry.none => f
      | SlotEntry.item oid =>
        if oid ≠ augId ∧ jsTruthy (hasGrant (db oid) grant false) = true then false else f)
    flag

/-- One iteration of the grant loop of `removeGrantedTags` (lines 566-576):
the slot scan updates the shared flag, and when the flag is still set the
namespaced tag is spliced out of the host's tags. -/
def rgtStep (db : Nat → Augment) (augId : Nat) (st : Host × Bool) (grant : Str) :
    Host × Bool :=
  let fl := otherGrantScan db st.1.augmentSlotItems augId grant st.2
  (if fl then removeTag st.1 (("aug_".data) ++ grant) else st.1, fl)

/-- `Kaos.Augment.removeGrantedTags` (lines 564-577).  Note the source keeps
one `removeTag` flag for the whole grant loop (`var removeTag = true` before
the loop, never reset inside it), so the flag value carries over from one
granted tag to the next; the embedding threads that shared flag through the
fold exactly as the source does. -/
def removeGrantedTags (db : Nat → Augment) (item : Host) (augment : Augment) : Host :=
  (augment.augmentGrantedTags.foldl (rgtStep db augment.id) (item, true)).1

/-- `Kaos.Augment.checkRequirements` inner loop (lines 585-589): `okToInstall`
starts false for the entry and is set on any host tag equal (JS `==`, exact)
to the requirement entry. -/
def checkOneReq (tags : List Str) (r : Str) : Bool :=
  tags.foldl (fun ok t => if r = t then true else ok) false

/-- `Kaos.Augment.checkRequirements` outer loop (lines 583-591): returns false
as soon as one entry finds no equal host tag; an empty requirement list skips
the loop and returns true. -/
def checkReqLoop (tags : List Str) : List Str → Bool
  | [] => true
  | r :: rest => if checkOneReq tags r then checkReqLoop tags rest else false

/-- `Kaos.Augment.checkRequirements(augment, item)` (lines 579-593). -/
def checkRequirements (augment : Augment) (item : Host) : Bool :=
  checkReqLoop item.tags augment.augmentRequirements

end Kaos.Augment

-- COLLABORATORS (modelled from the spec) --------------------------------------

/-- Modelled from the spec: the inventory collaborator's
`$gameParty.gainItem(item, qty)` — adds `qty` units of the item to the party
inventory (spec section 6, "Inventory collaborator"). -/
def gainItem (party : Nat → Int) (augId : Nat) (qty : Int) : Nat → Int :=
  fun i => if i = augId then party i + qty else party i

/-- Modelled from the spec: the inventory collaborator's
`$gameParty.loseItem(item, qty)` — removes `qty` units (spec section 6). -/
def loseItem (party : Nat → Int) (augId : Nat) (qty : Int) : Nat → Int :=
  gainItem party augId (-qty)

/-- Modelled from the spec: the slot collaborator's
`ItemManager.augmentInSlot(item, slotId)` (YEP_X_AttachAugments, not in this
repository) — resolves the slot's occupancy entry against the item database,
yielding nothing for an empty or out-of-range slot; the overriding code's own
`if (!augment)` branch (line 416) confirms the empty answer is null-ish. -/
def augmentInSlot (db : Nat → Augment) (item : Host) (slotId : Nat) : Option Augment :=
  match item.augmentSlotItems.get? slotId with
  | some (SlotEntry.item id) => some (db id)
  | _ => none

/-- Modelled from the spec: the slot collaborator's
`ItemManager.installAugmentToSlot(item, effectItem, slotId)` — records the
installed augment in the host's slot array ("Set slot state to
`Occupied(augment)`", spec section 4.2); a null `effectItem` writes the empty
sentinel back. -/
def installToSlot (item : Host) (effectItem : Option Augment) (slotId : Nat) : Host :=
  { item with
    augmentSlotItems :=
      item.augmentSlotItems.set slotId
        (match effectItem with
         | some a => SlotEntry.item a.id
         | none => SlotEntry.none) }

-- LIFECYCLE ------------------------------------------------------------------

namespace ItemManager

open Kaos.Augment

/-- The override `ItemManager.removeAugmentFromSlot` (lines 407-428): first
the Kaos pre-removal hook `removeGrantedTags(item, augmentInSlot(...))` runs —
on an empty slot `augmentInSlot` yields nothing and the hook dereferences the
null augment, modelled as `Except.error` — then the YEP detach effects run
(stat changes outside the modelled state) and the occupant is returned; the
slot array itself is not cleared here. -/
def removeAugmentFromSlot (db : Nat → Augment) (item : Host) (slotId : Nat) :
    Except Unit (Host × Option Augment) :=
  match augmentInSlot db item slotId with
  | Option.none => Except.error ()
  | some aug => Except.ok (removeGrantedTags db item aug, some aug)

/-- The override `ItemManager.applyAugmentEffects(item, effectItem, slotId,
gain)` (lines 380-405).  `okToInstall` is only assigned when `effectItem` is
present (a null `effectItem` leaves it undefined, hence falsy); on a truthy
check the granted tags are added before any displacement; the install block
displaces a prior occupant (returning it at `gain` units), writes the slot,
and loses `gain` units of the new augment; finally, whenever `okToInstall` is
falsy — including the removal path — the rejection window is shown with the
effect item's rejection string (empty for null). -/
def applyAugmentEffects (db : Nat → Augment) (st : GState) (effectItem : Option Augment)
    (slotId : Nat) (gain : Int) : Except Unit GState :=
  let okToInstall : Bool :=
    match effectItem with
    | some a => checkRequirements a st.host
    | Option.none => false
  let h0 : Host :=
    match effectItem with
    | some a => if checkRequirements a st.host then addGrantedTags st.host a else st.host
    | Option.none => st.host
  let core : Except Unit (Host × (Nat → Int)) :=
    if okToInstall || effectItem.isNone then
      let d : Except Unit (Host × (Nat → Int)) :=
        match h0.augmentSlotItems.get? slotId with
        | some SlotEntry.none => Except.ok (h0, st.party)
        | _ =>
          match removeAugmentFromSlot db h0 slotId with
          | Except.error e => Except.error e
          | Except.ok (h1, aug?) =>
            Except.ok (h1,
              match aug? with
              | some old => gainItem st.party old.id gain
              | Option.none => st.party)
      match d with
      | Except.error e => Except.error e
      | Except.ok (h1, p1) =>
        Except.ok (installToSlot h1 effectItem slotId,
          match effectItem with
          | some a => loseItem p1 a.id gain
          | Option.none => p1)
    else Except.ok (h0, st.party)
  match core with
  | Except.error e => Except.error e
  | Except.ok (h2, p2) =>
    Except.ok
      { host := h2, party := p2,
        rejectionShown := if okToInstall then st.rejectionShown else true,
        rejectionText :=
          if okToInstall then st.rejectionText
          else
            match effectItem with
            | some a => a.augmentRejectionString
            | Option.none => [] }

end ItemManager

namespace Kaos.Augment

/-- `Kaos.Augment.installAugmentToSlot` (lines 600-604): runs
`applyAugmentEffects` with `gain = gain || 0`, then unconditionally loses one
unit of the augment from the party inventory. -/
def installAugmentToSlot (db : Nat → Augment) (st : GState) (effectItem : Augment)
    (slotId : Nat) (gain : Int) : Except Unit GState :=
  (ItemManager.applyAugmentEffects db st (some effectItem) slotId gain).map
    (fun st1 => { st1 with party := loseItem st1.party effectItem.id 1 })

/-- `Kaos.Augment.removeAugmentFromSlot` (lines 606-613): the pre-removal hook
`removeGrantedTags(item, ItemManager.augmentInSlot(...))` dereferences the
looked-up augment — nothing there means the thrown `TypeError`, modelled as
`Except.error` — then `ItemManager.removeAugmentFromSlot` runs (which repeats
the hook), one unit is always returned to the inventory (`gain = gain || true`
is truthy for every argument, so the `if (gain)` always fires), and the slot
is finally set back to the empty sentinel. -/
def removeAugmentFromSlot (db : Nat → Augment) (st : GState) (slotId : Nat) :
    Except Unit (GState × Option Augment) :=
  match augmentInSlot db st.host slotId with
  | Option.none => Except.error ()
  | some aug0 =>
    let h1 := removeGrantedTags db st.host aug0
    match ItemManager.removeAugmentFromSlot db h1 slotId with
    | Except.error e => Except.error e
    | Except.ok (h2, aug?) =>
      let p1 :=
        match aug? with
        | some a => gainItem st.party a.id 1
        | Option.none => st.party
      let h3 := { h2 with augmentSlotItems := h2.augmentSlotItems.set slotId SlotEntry.none }
      Except.ok ({ st with host := h3, party := p1 }, aug?)

end Kaos.Augment

/-- Projects the success state out of an `Except`, with a fallback for the
error case (used only to name concrete scenario states below). -/
def getOk (e : Except Unit GState) (d : GState) : GState :=
  match e with
  | Except.ok s => s
  | Except.error _ => d

-- CONCRETE SCENARIOS ----------------------------------------------------------

/-- Database item 1: an augment with no requirements granting `G1` and `G2`. -/
def augA : Augment := ⟨1, [], ["G1".data, "G2".data], []⟩

/-- Database item 2: an augment with no requirements granting only `G1`. -/
def augY : Augment := ⟨2, [], ["G1".data], []⟩

/-- A two-item database holding `augA` and `augY`. -/
def dbAB : Nat → Augment :=
  fun i => if i = 1 then augA else if i = 2 then augY else ⟨0, [], [], []⟩

/-- A pristine two-slot host: no tags, both slots empty, empty inventory,
rejection window hidden. -/
def gs0 : GState :=
  { host := { tags := [], augmentSlotItems := [SlotEntry.none, SlotEntry.none] },
    party := fun _ => 0, rejectionShown := false, rejectionText := [] }

/-- After installing `augY` into slot 1 of the pristine host. -/
def gs1 : GState := getOk (ItemManager.applyAugmentEffects dbAB gs0 (some augY) 1 0) gs0

/-- After additionally installing `augA` into slot 0. -/
def gs2 : GState := getOk (ItemManager.applyAugmentEffects dbAB gs1 (some augA) 0 0) gs1

/-- After then removing the augment of slot 0 again. -/
def gs3 : GState := getOk ((Kaos.Augment.removeAugmentFromSlot dbAB gs2 0).map Prod.fst) gs2

/-- Database item 1 for the displacement scenario: no requirements, grants
`HACKED`. -/
def augH1 : Augment := ⟨1, [], ["HACKED".data], []⟩

/-- Database item 2 for the displacement scenario: also grants `HACKED`. -/
def augH2 : Augment := ⟨2, [], ["HACKED".data], []⟩

/-- A database holding the two `HACKED`-granting augments. -/
def dbH : Nat → Augment :=
  fun i => if i = 1 then augH1 else if i = 2 then augH2 else ⟨0, [], [], []⟩

/-- A one-slot host whose slot is already occupied by `augH2`, carrying the
tag that occupant granted. -/
def gsH : GState :=
  { host := { tags := ["AUG_HACKED".data], augmentSlotItems := [SlotEntry.item 2] },
    party := fun _ => 0, rejectionShown := false, rejectionText := [] }

/-- After installing `augH1` into the occupied slot (a swap). -/
def gsH1 : GState := getOk (ItemManager.applyAugmentEffects dbH gsH (some augH1) 0 0) gsH

/-- A one-slot host whose slot is empty, with one plain tag. -/
def gsEmpty : GState :=
  { host := { tags := ["FOO".data], augmentSlotItems := [SlotEntry.none] },
    party := fun _ => 0, rejectionShown := false, rejectionText := [] }

/-- Scenario A of the spec: host with tag `CANFULLAUTO` and one empty slot. -/
def gsScA : GState :=
  { host := { tags := ["CANFULLAUTO".data], augmentSlotItems := [SlotEntry.none] },
    party := fun _ => 0, rejectionShown := false, rejectionText := [] }

/-- Scenario A/B augment: requires `CANFULLAUTO`, grants `HACKED`, with a
rejection string. -/
def augScA : Augment :=
  ⟨3, ["CANFULLAUTO".data], ["HACKED".data], "Software Rejected!".data⟩

/-- Scenario B of the spec: a host with no tags and one empty slot. -/
def gsScB : GState :=
  { host := { tags := [], augmentSlotItems := [SlotEntry.none] },
    party := fun _ => 0, rejectionShown := false, rejectionText := [] }

-- SANITY CHECKS ---------------------------------------------------------------

example : wildcardMatches ("canFullAuto".data) ("CANFULLAUTO".data) = true := by decide
example : wildcardMatches ("ILLEGAL*".data) ("ILLEGALUFM".data) = true := by decide
example : wildcardMatches ("*UFM".data) ("ILLEGALUFM".data) = true := by decide
example : wildcardMatches ("A*B".data) ("AXYZB".data) = true := by decide
example : wildcardMatches ("A*B".data) ("AB".data) = true := by decide
example : gs1.host.tags = ["AUG_G1".data] := by decide
example : gs1.host.augmentSlotItems = [SlotEntry.none, SlotEntry.item 2] := by decide
example : gs2.host.tags = ["AUG_G1".data, "AUG_G2".data] := by decide
example : gs2.host.augmentSlotItems = [SlotEntry.item 1, SlotEntry.item 2] := by decide
example : gs3.host.tags = ["AUG_G1".data, "AUG_G2".data] := by decide
example : gs3.host.augmentSlotItems = [SlotEntry.none, SlotEntry.item 2] := by decide
example : gsH1.host.augmentSlotItems = [SlotEntry.item 1] := by decide
example : gsH1.host.tags = [] := by decide
example : ItemManager.removeAugmentFromSlot dbAB gsEmpty.host 0 = Except.error () := rfl
example :
    (getOk (ItemManager.applyAugmentEffects dbAB gsScA (some augScA) 0 0) gsScA).host.tags
      = ["CANFULLAUTO".data, "AUG_HACKED".data] := by decide

-- HELPER LEMMAS ---------------------------------------------------------------

/-- `Char.ofNatAux` reads back the number it was built from. -/
lemma toNat_ofNatAux (n : Nat) (h : n.isValidChar) : (Char.ofNatAux n h).toNat = n := by
  simp [Char.ofNatAux, Char.toNat, UInt32.toNat, BitVec.toNat_ofNatLt]

/-- JS `toUpperCase` is idempotent on single characters. -/
lemma toUpper_idem (c : Char) : c.toUpper.toUpper = c.toUpper := by
  by_cases h : c.toNat ≥ 97 ∧ c.toNat ≤ 122
  · have hv : Nat.isValidChar (c.toNat - 32) := by
      left
      omega
    have ht : (Char.ofNat (c.toNat - 32)).toNat = c.toNat - 32 := by
      rw [Char.ofNat, dif_pos hv]
      exact toNat_ofNatAux _ hv
    have h1 : c.toUpper = Char.ofNat (c.toNat - 32) := by
      unfold Char.toUpper
      simp [h]
    have hno : ¬((Char.ofNat (c.toNat - 32)).toNat ≥ 97 ∧
        (Char.ofNat (c.toNat - 32)).toNat ≤ 122) := by
      rw [ht]
      omega
    rw [h1]
    unfold Char.toUpper
    rw [if_neg hno]
  · have h1 : c.toUpper = c := by
      unfold Char.toUpper
      simp [h]
    rw [h1, h1]

/-- JS `toUpperCase` is idempotent on strings. -/
lemma upperStr_idem (s : Str) : upperStr (upperStr s) = upperStr s := by
  simp [upperStr, Function.comp, toUpper_idem]

/-- `upperStr` distributes over concatenation. -/
lemma upperStr_append (s t : Str) : upperStr (s ++ t) = upperStr s ++ upperStr t := by
  simp [upperStr]

/-- The inner loop of `checkRequirements` computes membership: starting from
any accumulator, the fold is true iff the accumulator was or the requirement
occurs among the tags. -/
lemma checkOneReq_foldl (r : Str) (tags : List Str) (b : Bool) :
    tags.foldl (fun ok t => if r = t then true else ok) b = (b || decide (r ∈ tags)) := by
  induction tags generalizing b with
  | nil => simp
  | cons t ts ih =>
    rw [List.foldl_cons, ih]
    by_cases h : r = t
    · simp [h]
    · simp [h]

/-- `checkOneReq` succeeds exactly on stored membership. -/
lemma checkOneReq_iff (tags : List Str) (r : Str) :
    Kaos.Augment.checkOneReq tags r = true ↔ r ∈ tags := by
  unfold Kaos.Augment.checkOneReq
  rw [checkOneReq_foldl]
  simp

/-- The outer loop of `checkRequirements` is the conjunction of the
membership checks of all entries. -/
lemma checkReqLoop_iff (tags reqs : List Str) :
    Kaos.Augment.checkReqLoop tags reqs = true ↔ ∀ r ∈ reqs, r ∈ tags := by
  induction reqs with
  | nil => simp [Kaos.Augment.checkReqLoop]
  | cons r rest ih =>
    by_cases h : Kaos.Augment.checkOneReq tags r = true
    · have hr : r ∈ tags := (checkOneReq_iff tags r).mp h
      have h2 : Kaos.Augment.checkReqLoop tags (r :: rest) =
          Kaos.Augment.checkReqLoop tags rest := by
        simp [Kaos.Augment.checkReqLoop, h]
      rw [h2, ih]
      constructor
      · intro hall x hx
        rcases List.mem_cons.mp hx with hx | hx
        · exact hx ▸ hr
        · exact hall x hx
      · intro hall x hx
        exact hall x (List.mem_cons_of_mem _ hx)
    · have h2 : Kaos.Augment.checkReqLoop tags (r :: rest) = false := by
        simp [Kaos.Augment.checkReqLoop, h]
      rw [h2]
      simp only [Bool.false_eq_true, false_iff]
      intro hall
      exact h ((checkOneReq_iff tags r).mpr (hall r (List.mem_cons_self r rest)))

-- CLAIM C2 --------------------------------------------------------------------

/-- Claim C2: requirement evaluation at install time succeeds iff every entry
of `augment.augmentRequirements` is exactly (by string membership, with JS
`==` equality and no wildcard interpretation) an element of `host.tags`; the
iff makes evaluation conjunctive over the entries, and an empty requirement
list passes vacuously. -/
theorem c2_checkRequirements_exact_conjunctive (a : Augment) (h : Host) :
    Kaos.Augment.checkRequirements a h = true ↔
      ∀ r ∈ a.augmentRequirements, r ∈ h.tags := by
  simpa [Kaos.Augment.checkRequirements] using checkReqLoop_iff h.tags a.augmentRequirements

-- CLAIM C7 --------------------------------------------------------------------

/-- Claim C7 counterexample: the requirement entry `"ABC"` and the host tag
`"abc"` differ only in letter case (their uppercasings agree), yet the
install-time evaluation rejects — the comparison on line 586 is exact JS
`==`, not case-insensitive. -/
theorem c7_counterexample :
    upperStr ("ABC".data) = upperStr ("abc".data) ∧
    Kaos.Augment.checkRequirements ⟨0, ["ABC".data], [], []⟩ ⟨["abc".data], []⟩ = false := by
  decide

/-- Claim C7 amended: the install-time comparison is exact (case-sensitive)
string equality; for strings already normalised to uppercase — which the
notetag parser guarantees for both requirement entries and stored tags — the
evaluation accepts exactly when the two sides agree case-insensitively. -/
theorem c7_amended_exact_equality (r t : Str)
    (hr : upperStr r = r) (ht : upperStr t = t) :
    (Kaos.Augment.checkRequirements ⟨0, [r], [], []⟩ ⟨[t], []⟩ = true) ↔
      upperStr r = upperStr t := by
  rw [hr, ht]
  have base : Kaos.Augment.checkRequirements ⟨0, [r], [], []⟩ ⟨[t], []⟩ =
      Kaos.Augment.checkReqLoop [t] [r] := rfl
  rw [base, checkReqLoop_iff]
  simp

/-- Witness for the amended claim C7 at the concrete uppercase pair
`"ABC"`/`"ABC"`. -/
theorem c7_amended_witness :
    (Kaos.Augment.checkRequirements ⟨0, ["ABC".data], [], []⟩ ⟨["ABC".data], []⟩ = true) ↔
      upperStr ("ABC".data) = upperStr ("ABC".data) :=
  c7_amended_exact_equality ("ABC".data) ("ABC".data) (by decide) (by decide)

-- CLAIM C3 --------------------------------------------------------------------

/-- Claim C3: when requirement evaluation fails, the install aborts
atomically — the returned state keeps `host` (tags and slot array) and the
party inventory exactly as they were, and only the rejection window changes:
it is shown with the augment's `augmentRejectionString`. -/
theorem c3_failed_install_aborts_atomically (db : Nat → Augment) (st : GState)
    (a : Augment) (slotId : Nat) (gain : Int)
    (h : Kaos.Augment.checkRequirements a st.host = false) :
    ItemManager.applyAugmentEffects db st (some a) slotId gain =
      Except.ok { st with
                  rejectionShown := true
                  rejectionText := a.augmentRejectionString } := by
  simp [ItemManager.applyAugmentEffects, h]

/-- Witness for claim C3 at the spec's Scenario B: an untagged host and the
augment requiring `CANFULLAUTO`. -/
theorem c3_failed_install_witness :
    ItemManager.applyAugmentEffects dbAB gsScB (some augScA) 0 0 =
      Except.ok { gsScB with
                  rejectionShown := true
                  rejectionText := augScA.augmentRejectionString } :=
  c3_failed_install_aborts_atomically dbAB gsScB augScA 0 0 (by decide)

-- CLAIM C8 --------------------------------------------------------------------

/-- Claim C8 is contradicted by the code: invoking the remove operation on an
`Empty` slot is not a no-op — `removeGrantedTags` receives the null result of
`augmentInSlot` before the empty-slot check at line 416 can run, and
dereferencing it throws (the `Except.error` here); the claim and the
function's own dead `if (!augment)` branch both expect a quiet
"nothing removed". -/
theorem c8_empty_slot_remove_throws :
    Kaos.Augment.removeAugmentFromSlot dbAB gsEmpty 0 = Except.error () := rfl

-- CLAIM C1 --------------------------------------------------------------------

/-- Claim C1 is contradicted by the code: starting from a pristine two-slot
host, install `augY` (grants `G1`) into slot 1, install `augA` (grants `G1`
and `G2`) into slot 0, then remove slot 0 — state `gs3`.  The namespaced tag
`AUG_G2` is still present, yet the only remaining occupant is item 2 =
`augY`, which does not grant `G2`: the `removeTag` flag of
`removeGrantedTags` goes false for `G1` (still granted by `augY`) and is
never reset for `G2`. -/
theorem c1_invariant_breaks_after_removal :
    gs3.host.tags.contains ("AUG_G2".data) = true ∧
    gs3.host.augmentSlotItems = [SlotEntry.none, SlotEntry.item 2] ∧
    dbAB 2 = augY ∧
    jsTruthy (Kaos.Augment.hasGrant augY ("G2".data) false) = false := by
  decide

-- CLAIM C4 --------------------------------------------------------------------

/-- Claim C4 is contradicted by the code: in state `gs1` slot 0 is empty and
`augA` passes its (empty) requirement check; `gs3` is the state after
installing `augA` into slot 0 (`gs2`) and immediately removing it again.  The
slot does return to `Empty`, but `host.tags` is not restored: `AUG_G2` was
absent before and present after, because the shared `removeTag` flag of
`removeGrantedTags` is cleared by the `G1` check (slot 1's `augY` also
grants `G1`) and never reset for `G2`. -/
theorem c4_install_remove_not_restored :
    gs1.host.augmentSlotItems.get? 0 = some SlotEntry.none ∧
    Kaos.Augment.checkRequirements augA gs1.host = true ∧
    gs3.host.augmentSlotItems.get? 0 = some SlotEntry.none ∧
    gs1.host.tags.contains ("AUG_G2".data) = false ∧
    gs3.host.tags.contains ("AUG_G2".data) = true := by
  decide

-- CLAIM C5 --------------------------------------------------------------------

/-- Claim C5 counterexample: the host `gsH` satisfies `augH1`'s (empty)
requirement list, and installing `augH1` into its occupied slot 0 does set
the slot to the new occupant — but the namespaced granted tag `AUG_HACKED`
is NOT in `host.tags` afterwards: the displaced occupant `augH2` grants the
same tag, and its `removeGrantedTags` (running after `addGrantedTags`)
deletes the tag that had just been added. -/
theorem c5_counterexample :
    Kaos.Augment.checkRequirements augH1 gsH.host = true ∧
    gsH1.host.augmentSlotItems = [SlotEntry.item 1] ∧
    gsH1.host.tags.contains ("AUG_HACKED".data) = false := by
  decide

-- SCAN LEMMAS (for hasTag / hasGrant) -----------------------------------------

/-- When no candidate matches, the scan loop leaves its accumulator alone. -/
lemma scanTagsFrom_none (tag : Str) (tags : List Str)
    (h : ∀ c ∈ tags, wildcardMatches tag c = false) :
    ∀ t0 st, Kaos.Augment.scanTagsFrom tag tags t0 st = st := by
  induction tags with
  | nil => intro t0 st; rfl
  | cons c rest ih =>
    intro t0 st
    have hc : wildcardMatches tag c = false := h c (by simp)
    simp only [Kaos.Augment.scanTagsFrom, hc]
    exact ih (fun x hx => h x (by simp [hx])) (t0 + 1) st

/-- When some candidate matches, the scan returns `found` together with the
offset of the last matching candidate: it matches, and nothing after it
does. -/
lemma scanTagsFrom_last (tag : Str) (tags : List Str) :
    ∀ t0 st, (∃ c ∈ tags, wildcardMatches tag c = true) →
      ∃ j, Kaos.Augment.scanTagsFrom tag tags t0 st = (t0 + j, true) ∧
        (∃ c, tags.get? j = some c ∧ wildcardMatches tag c = true) ∧
        (∀ i c, j < i → tags.get? i = some c → wildcardMatches tag c = false) := by
  induction tags with
  | nil =>
    intro t0 st h
    simp at h
  | cons c0 rest ih =>
    intro t0 st h
    by_cases hrest : ∃ c ∈ rest, wildcardMatches tag c = true
    · obtain ⟨j, hj, hjc, hjlast⟩ :=
        ih (t0 + 1) (if wildcardMatches tag c0 then (t0, true) else st) hrest
      refine ⟨j + 1, ?_, ?_, ?_⟩
      · have harith : t0 + 1 + j = t0 + (j + 1) := by omega
        simp only [Kaos.Augment.scanTagsFrom]
        rw [hj, harith]
      · obtain ⟨c, hc1, hc2⟩ := hjc
        exact ⟨c, by simpa using hc1, hc2⟩
      · intro i c hi hic
        cases i with
        | zero => omega
        | succ ipred => exact hjlast ipred c (by omega) (by simpa using hic)
    · have hc0 : wildcardMatches tag c0 = true := by
        obtain ⟨c, hcmem, hcm⟩ := h
        rcases List.mem_cons.mp hcmem with rfl | hmem
        · exact hcm
        · exact absurd ⟨c, hmem, hcm⟩ hrest
      have hnone : ∀ x ∈ rest, wildcardMatches tag x = false := by
        intro x hx
        cases hxm : wildcardMatches tag x
        · rfl
        · exact absurd ⟨x, hx, hxm⟩ hrest
      refine ⟨0, ?_, ⟨c0, by simp, hc0⟩, ?_⟩
      · simp only [Kaos.Augment.scanTagsFrom, hc0]
        rw [scanTagsFrom_none tag rest hnone]
        simp
      · intro i c hi hic
        cases i with
        | zero => omega
        | succ ipred => exact hnone c (List.get?_mem (by simpa using hic))

-- CLAIM C9 --------------------------------------------------------------------

/-- Claim C9: whenever some entry of `item.tags` matches the query, the
indexed lookup `hasTag(item, tag, true)` returns the position of the LAST
matching candidate — the returned index matches and every later position
does not. -/
theorem c9_returnIndex_last_match (item : Host) (tag : Str)
    (h : ∃ c ∈ item.tags, wildcardMatches tag c = true) :
    ∃ k, Kaos.Augment.hasTag item tag true = JsVal.num k ∧
      (∃ c, item.tags.get? k = some c ∧ wildcardMatches tag c = true) ∧
      (∀ i c, k < i → item.tags.get? i = some c → wildcardMatches tag c = false) := by
  obtain ⟨j, hj, hjc, hjlast⟩ := scanTagsFrom_last tag item.tags 0 (0, false) h
  refine ⟨j, ?_, hjc, hjlast⟩
  simp [Kaos.Augment.hasTag, hj]

/-- A three-tag host for the C9 and C10 witnesses: the query `FOO` matches at
positions 0 and 2. -/
def hostC9 : Host := ⟨["FOO".data, "BAR".data, "FOO".data], []⟩

/-- Witness for claim C9: on `hostC9` the indexed lookup reports the last
match (position 2), not the first. -/
theorem c9_returnIndex_witness :
    ∃ k, Kaos.Augment.hasTag hostC9 ("FOO".data) true = JsVal.num k ∧
      (∃ c, hostC9.tags.get? k = some c ∧ wildcardMatches ("FOO".data) c = true) ∧
      (∀ i c, k < i → hostC9.tags.get? i = some c →
        wildcardMatches ("FOO".data) c = false) :=
  c9_returnIndex_last_match hostC9 ("FOO".data) (by decide)

-- CLAIM C10 -------------------------------------------------------------------

/-- Claim C10: when the last (here: only) matching tag sits at position 0,
`hasTag(item, tag, true)` returns the number 0, while on an item with no
matching tag it returns the boolean false — and the two results have the
same (falsy) JS truthiness, so a truthiness-only caller cannot tell a tag at
index 0 from an absent tag. -/
theorem c10_index_zero_falsy (item1 : Host) (tag c0 : Str)
    (hhead : item1.tags.head? = some c0)
    (hm : wildcardMatches tag c0 = true)
    (hrest : ∀ c ∈ item1.tags.tail, wildcardMatches tag c = false) :
    Kaos.Augment.hasTag item1 tag true = JsVal.num 0 ∧
    (∀ item2 : Host, (∀ c ∈ item2.tags, wildcardMatches tag c = false) →
      Kaos.Augment.hasTag item2 tag true = JsVal.bool false) ∧
    jsTruthy (JsVal.num 0) = jsTruthy (JsVal.bool false) := by
  refine ⟨?_, ?_, rfl⟩
  · obtain ⟨t, ht⟩ : ∃ t, item1.tags = c0 :: t := by
      cases htags : item1.tags with
      | nil =>
        rw [htags] at hhead
        simp at hhead
      | cons x xs =>
        rw [htags] at hhead
        simp at hhead
        exact ⟨xs, by rw [hhead]⟩
    have htail : ∀ c ∈ t, wildcardMatches tag c = false := by
      intro c hc
      apply hrest
      rw [ht]
      simpa using hc
    unfold Kaos.Augment.hasTag
    rw [ht]
    simp only [Kaos.Augment.scanTagsFrom, hm]
    rw [scanTagsFrom_none tag t htail]
    simp
  · intro item2 h2
    unfold Kaos.Augment.hasTag
    rw [scanTagsFrom_none tag item2.tags h2]
    simp

/-- A one-tag host for the C10 witness. -/
def hostC10 : Host := ⟨["FOO".data], []⟩

/-- Witness for claim C10 at `hostC10` with query `FOO`: the only match sits
at position 0 and the returned index 0 is as falsy as the no-match boolean. -/
theorem c10_index_zero_witness :
    Kaos.Augment.hasTag hostC10 ("FOO".data) true = JsVal.num 0 ∧
    (∀ item2 : Host, (∀ c ∈ item2.tags, wildcardMatches ("FOO".data) c = false) →
      Kaos.Augment.hasTag item2 ("FOO".data) true = JsVal.bool false) ∧
    jsTruthy (JsVal.num 0) = jsTruthy (JsVal.bool false) :=
  c10_index_zero_falsy hostC10 ("FOO".data) ("FOO".data) (by decide) (by decide) (by decide)

-- TAG-SET LEMMAS --------------------------------------------------------------

/-- `removeTag` erases the first occurrence of the uppercased tag. -/
lemma removeTag_tags (h : Host) (y : Str) :
    (Kaos.Augment.removeTag h y).tags = h.tags.erase (upperStr y) := rfl

/-- Neither tag operation touches the slot array. -/
lemma addTag_slots (h : Host) (y : Str) :
    (Kaos.Augment.addTag h y).augmentSlotItems = h.augmentSlotItems := rfl

/-- `addTag` dedups (via the uppercase-idempotent double `toUpperCase`) and
then appends the uppercased tag. -/
lemma addTag_tags (h : Host) (y : Str) :
    (Kaos.Augment.addTag h y).tags = h.tags.erase (upperStr y) ++ [upperStr y] := by
  unfold Kaos.Augment.addTag Kaos.Augment.removeTag
  simp [upperStr_idem]

/-- `addTag` never loses a tag that was already present. -/
lemma mem_addTag (h : Host) (y z : Str) (hz : z ∈ h.tags) :
    z ∈ (Kaos.Augment.addTag h y).tags := by
  rw [addTag_tags]
  by_cases he : z = upperStr y
  · simp [he]
  · rw [List.mem_append]
    left
    exact (List.mem_erase_of_ne he).mpr hz

/-- `addTag` makes its uppercased tag present. -/
lemma self_mem_addTag (h : Host) (y : Str) :
    upperStr y ∈ (Kaos.Augment.addTag h y).tags := by
  rw [addTag_tags]
  simp

/-- The `addGrantedTags` fold leaves the slot array alone. -/
lemma foldl_addTag_slots (gs : List Str) :
    ∀ h : Host,
      ((gs.foldl (fun it g => Kaos.Augment.addTag it (("aug_".data) ++ g)) h)).augmentSlotItems
        = h.augmentSlotItems := by
  induction gs with
  | nil => intro h; rfl
  | cons g rest ih =>
    intro h
    rw [List.foldl_cons, ih]
    rfl

/-- `addGrantedTags` leaves the slot array alone. -/
lemma addGrantedTags_slots (h : Host) (a : Augment) :
    (Kaos.Augment.addGrantedTags h a).augmentSlotItems = h.augmentSlotItems :=
  foldl_addTag_slots a.augmentGrantedTags h

/-- The `addGrantedTags` fold preserves tag membership. -/
lemma mem_foldl_addTag_of_mem (gs : List Str) :
    ∀ (h : Host) (z : Str), z ∈ h.tags →
      z ∈ ((gs.foldl (fun it g => Kaos.Augment.addTag it (("aug_".data) ++ g)) h)).tags := by
  induction gs with
  | nil => intro h z hz; exact hz
  | cons g rest ih =>
    intro h z hz
    rw [List.foldl_cons]
    exact ih _ z (mem_addTag _ _ z hz)

/-- After the `addGrantedTags` fold every listed grant's namespaced tag is
present. -/
lemma mem_foldl_addTag (gs : List Str) :
    ∀ (h : Host) (g : Str), g ∈ gs →
      upperStr (("aug_".data) ++ g) ∈
        ((gs.foldl (fun it g => Kaos.Augment.addTag it (("aug_".data) ++ g)) h)).tags := by
  induction gs with
  | nil =>
    intro h g hg
    simp at hg
  | cons g0 rest ih =>
    intro h g hg
    rw [List.foldl_cons]
    rcases List.mem_cons.mp hg with rfl | hmem
    · exact mem_foldl_addTag_of_mem rest _ _ (self_mem_addTag h _)
    · exact ih _ g hmem

/-- Uppercasing maps the `"aug_"` namespace marker onto `"AUG_"`. -/
lemma upperStr_aug (g : Str) :
    upperStr (("aug_".data) ++ g) = ("AUG_".data) ++ upperStr g := by
  rw [upperStr_append]
  have hmark : upperStr ("aug_".data) = ("AUG_".data) := by decide
  rw [hmark]

/-- `addTag` preserves duplicate-freedom of the tag list. -/
lemma nodup_addTag (h : Host) (y : Str) (hn : h.tags.Nodup) :
    (Kaos.Augment.addTag h y).tags.Nodup := by
  rw [addTag_tags, List.nodup_append]
  refine ⟨hn.erase _, List.nodup_singleton _, ?_⟩
  intro x hx hx2
  simp at hx2
  subst hx2
  exact hn.not_mem_erase hx

/-- The `addGrantedTags` fold preserves duplicate-freedom. -/
lemma nodup_foldl_addTag (gs : List Str) :
    ∀ h : Host, h.tags.Nodup →
      ((gs.foldl (fun it g => Kaos.Augment.addTag it (("aug_".data) ++ g)) h)).tags.Nodup := by
  induction gs with
  | nil => intro h hn; exact hn
  | cons g rest ih =>
    intro h hn
    rw [List.foldl_cons]
    exact ih _ (nodup_addTag _ _ hn)

/-- One `removeGrantedTags` step leaves the slot array alone. -/
lemma rgtStep_slots (db : Nat → Augment) (aid : Nat) (st : Host × Bool) (g : Str) :
    ((Kaos.Augment.rgtStep db aid st g).1).augmentSlotItems = (st.1).augmentSlotItems := by
  simp only [Kaos.Augment.rgtStep]
  split
  · rfl
  · rfl

/-- The `removeGrantedTags` fold leaves the slot array alone. -/
lemma foldl_rgtStep_slots (db : Nat → Augment) (aid : Nat) (gs : List Str) :
    ∀ st : Host × Bool,
      (((gs.foldl (Kaos.Augment.rgtStep db aid) st)).1).augmentSlotItems
        = (st.1).augmentSlotItems := by
  induction gs with
  | nil => intro st; rfl
  | cons g rest ih =>
    intro st
    rw [List.foldl_cons, ih]
    exact rgtStep_slots db aid st g

/-- `removeGrantedTags` leaves the slot array alone. -/
lemma removeGrantedTags_slots (db : Nat → Augment) (h : Host) (a : Augment) :
    (Kaos.Augment.removeGrantedTags db h a).augmentSlotItems = h.augmentSlotItems :=
  foldl_rgtStep_slots db a.id a.augmentGrantedTags (h, true)

/-- One `removeGrantedTags` step can only erase the processed grant's
namespaced tag, so any other tag survives. -/
lemma mem_rgtStep (db : Nat → Augment) (aid : Nat) (st : Host × Bool) (g z : Str)
    (hz : z ∈ st.1.tags) (hne : z ≠ upperStr (("aug_".data) ++ g)) :
    z ∈ ((Kaos.Augment.rgtStep db aid st g).1).tags := by
  simp only [Kaos.Augment.rgtStep]
  split
  · rw [removeTag_tags]
    exact (List.mem_erase_of_ne hne).mpr hz
  · exact hz

/-- Through the whole `removeGrantedTags` fold, a tag distinct from every
listed grant's namespaced form survives. -/
lemma mem_foldl_rgtStep (db : Nat → Augment) (aid : Nat) (gs : List Str) :
    ∀ (st : Host × Bool) (z : Str), z ∈ st.1.tags →
      (∀ g ∈ gs, z ≠ upperStr (("aug_".data) ++ g)) →
      z ∈ (((gs.foldl (Kaos.Augment.rgtStep db aid) st)).1).tags := by
  induction gs with
  | nil => intro st z hz _; exact hz
  | cons g rest ih =>
    intro st z hz hne
    rw [List.foldl_cons]
    exact ih _ z (mem_rgtStep db aid st g z hz (hne g (by simp)))
      (fun gx hgx => hne gx (by simp [hgx]))

/-- `removeGrantedTags` keeps every tag that is not the namespaced form of
one of the departing augment's grants. -/
lemma mem_removeGrantedTags (db : Nat → Augment) (h : Host) (a : Augment) (z : Str)
    (hz : z ∈ h.tags)
    (hne : ∀ g ∈ a.augmentGrantedTags, z ≠ upperStr (("aug_".data) ++ g)) :
    z ∈ (Kaos.Augment.removeGrantedTags db h a).tags :=
  mem_foldl_rgtStep db a.id a.augmentGrantedTags (h, true) z hz hne

/-- One `removeGrantedTags` step preserves duplicate-freedom. -/
lemma nodup_rgtStep (db : Nat → Augment) (aid : Nat) (st : Host × Bool) (g : Str)
    (hn : st.1.tags.Nodup) : ((Kaos.Augment.rgtStep db aid st g).1).tags.Nodup := by
  simp only [Kaos.Augment.rgtStep]
  split
  · exact hn.erase _
  · exact hn

/-- The `removeGrantedTags` fold preserves duplicate-freedom. -/
lemma nodup_foldl_rgtStep (db : Nat → Augment) (aid : Nat) (gs : List Str) :
    ∀ st : Host × Bool, st.1.tags.Nodup →
      ((((gs.foldl (Kaos.Augment.rgtStep db aid) st))).1).tags.Nodup := by
  induction gs with
  | nil => intro st hn; exact hn
  | cons g rest ih =>
    intro st hn
    rw [List.foldl_cons]
    exact ih _ (nodup_rgtStep db aid st g hn)

/-- `removeGrantedTags` preserves duplicate-freedom. -/
lemma nodup_removeGrantedTags (db : Nat → Augment) (h : Host) (a : Augment)
    (hn : h.tags.Nodup) : (Kaos.Augment.removeGrantedTags db h a).tags.Nodup :=
  nodup_foldl_rgtStep db a.id a.augmentGrantedTags (h, true) hn

/-- Writing a cell inside the list bounds is read back by `get?`. -/
lemma get?_set_self {α : Type} (l : List α) (i : Nat) (x : α) (hi : i < l.length) :
    (l.set i x).get? i = some x := by
  induction l generalizing i with
  | nil => simp at hi
  | cons a t ih =>
    cases i with
    | zero => rfl
    | succ j => exact ih j (by simpa using hi)

-- EVALUATION LEMMAS FOR THE INSTALL PATH --------------------------------------

/-- Successful install into an empty slot: granted tags are added, no
displacement happens, the slot is written, `gain` units are lost. -/
lemma applyAugmentEffects_ok_empty (db : Nat → Augment) (st : GState) (a : Augment)
    (slotId : Nat) (gain : Int)
    (hreq : Kaos.Augment.checkRequirements a st.host = true)
    (hget : (Kaos.Augment.addGrantedTags st.host a).augmentSlotItems.get? slotId
      = some SlotEntry.none) :
    ItemManager.applyAugmentEffects db st (some a) slotId gain =
      Except.ok
        { host := installToSlot (Kaos.Augment.addGrantedTags st.host a) (some a) slotId
          party := loseItem st.party a.id gain
          rejectionShown := st.rejectionShown
          rejectionText := st.rejectionText } := by
  simp only [ItemManager.applyAugmentEffects, hreq, hget, if_true, Bool.true_or,
    Option.isNone_some]

/-- Successful install into an occupied slot: granted tags are added, the
occupant is displaced through `removeGrantedTags`, returned at `gain` units,
the slot is overwritten, `gain` units of the new augment are lost. -/
lemma applyAugmentEffects_ok_occupied (db : Nat → Augment) (st : GState) (a : Augment)
    (slotId : Nat) (gain : Int) (oid : Nat)
    (hreq : Kaos.Augment.checkRequirements a st.host = true)
    (hget : (Kaos.Augment.addGrantedTags st.host a).augmentSlotItems.get? slotId
      = some (SlotEntry.item oid)) :
    ItemManager.applyAugmentEffects db st (some a) slotId gain =
      Except.ok
        { host := installToSlot
            (Kaos.Augment.removeGrantedTags db (Kaos.Augment.addGrantedTags st.host a) (db oid))
            (some a) slotId
          party := loseItem (gainItem st.party (db oid).id gain) a.id gain
          rejectionShown := st.rejectionShown
          rejectionText := st.rejectionText } := by
  simp only [ItemManager.applyAugmentEffects, ItemManager.removeAugmentFromSlot,
    augmentInSlot, hreq, hget, if_true, Bool.true_or, Option.isNone_some]

/-- Claim C5 amended: when the requirement evaluation succeeds AND no
displaced prior occupant of the target slot grants a tag agreeing
case-insensitively with one of the incoming augment's granted tags (in
particular whenever the slot is empty), the install reaches a success state
in which every entry of `augmentGrantedTags` is present as the namespaced
uppercased tag `AUG_<entry>` in `host.tags`, no duplicate tag is created, and
the slot holds the installed augment. -/
theorem c5_amended_install_adds_tags (db : Nat → Augment) (st : GState) (a : Augment)
    (slotId : Nat) (gain : Int)
    (hreq : Kaos.Augment.checkRequirements a st.host = true)
    (hlen : slotId < st.host.augmentSlotItems.length)
    (hdisp : ∀ oid, st.host.augmentSlotItems.get? slotId = some (SlotEntry.item oid) →
      ∀ g ∈ a.augmentGrantedTags, ∀ b ∈ (db oid).augmentGrantedTags,
        upperStr b ≠ upperStr g) :
    ∃ st' : GState,
      ItemManager.applyAugmentEffects db st (some a) slotId gain = Except.ok st' ∧
      (∀ g ∈ a.augmentGrantedTags, ("AUG_".data) ++ upperStr g ∈ st'.host.tags) ∧
      (st.host.tags.Nodup → st'.host.tags.Nodup) ∧
      st'.host.augmentSlotItems.get? slotId = some (SlotEntry.item a.id) := by
  have hslots0 : (Kaos.Augment.addGrantedTags st.host a).augmentSlotItems
      = st.host.augmentSlotItems := addGrantedTags_slots st.host a
  cases hget : st.host.augmentSlotItems.get? slotId with
  | none =>
    have hle : st.host.augmentSlotItems.length ≤ slotId := List.get?_eq_none.mp hget
    omega
  | some e =>
    cases e with
    | none =>
      refine ⟨_, applyAugmentEffects_ok_empty db st a slotId gain hreq
        (by rw [hslots0]; exact hget), ?_, ?_, ?_⟩
      · intro g hg
        have hmem := mem_foldl_addTag a.augmentGrantedTags st.host g hg
        rw [upperStr_aug] at hmem
        exact hmem
      · intro hn
        exact nodup_foldl_addTag a.augmentGrantedTags st.host hn
      · show ((Kaos.Augment.addGrantedTags st.host a).augmentSlotItems.set slotId
            (SlotEntry.item a.id)).get? slotId = some (SlotEntry.item a.id)
        apply get?_set_self
        rw [hslots0]
        exact hlen
    | item oid =>
      refine ⟨_, applyAugmentEffects_ok_occupied db st a slotId gain oid hreq
        (by rw [hslots0]; exact hget), ?_, ?_, ?_⟩
      · intro g hg
        have hmem0 := mem_foldl_addTag a.augmentGrantedTags st.host g hg
        have hne : ∀ b ∈ (db oid).augmentGrantedTags,
            upperStr (("aug_".data) ++ g) ≠ upperStr (("aug_".data) ++ b) := by
          intro b hb heq
          rw [upperStr_aug, upperStr_aug] at heq
          exact hdisp oid hget g hg b hb (List.append_cancel_left heq).symm
        have hmem := mem_removeGrantedTags db _ (db oid) _ hmem0 hne
        rw [upperStr_aug] at hmem
        exact hmem
      · intro hn
        exact nodup_removeGrantedTags db _ (db oid)
          (nodup_foldl_addTag a.augmentGrantedTags st.host hn)
      · show ((Kaos.Augment.removeGrantedTags db (Kaos.Augment.addGrantedTags st.host a)
            (db oid)).augmentSlotItems.set slotId
            (SlotEntry.item a.id)).get? slotId = some (SlotEntry.item a.id)
        apply get?_set_self
        rw [removeGrantedTags_slots, hslots0]
        exact hlen

/-- Witness for the amended claim C5 at the spec's Scenario A: tagged host,
empty slot, requirement `CANFULLAUTO` met, grant `HACKED` namespaced onto the
host and the slot occupied. -/
theorem c5_amended_witness :
    ∃ st' : GState,
      ItemManager.applyAugmentEffects dbAB gsScA (some augScA) 0 0 = Except.ok st' ∧
      (∀ g ∈ augScA.augmentGrantedTags, ("AUG_".data) ++ upperStr g ∈ st'.host.tags) ∧
      (gsScA.host.tags.Nodup → st'.host.tags.Nodup) ∧
      st'.host.augmentSlotItems.get? 0 = some (SlotEntry.item augScA.id) :=
  c5_amended_install_adds_tags dbAB gsScA augScA 0 0 (by decide) (by decide)
    (fun oid h => SlotEntry.noConfusion (Option.some.inj h))

-- MATCHER LEMMAS (for the middle-wildcard shape) ------------------------------

/-- `List.isPrefixOf` as an existential decomposition. -/
lemma isPrefixOf_iff (a c : Str) : a.isPrefixOf c = true ↔ ∃ t, c = a ++ t := by
  induction a generalizing c with
  | nil => simp [List.isPrefixOf]
  | cons x xs ih =>
    cases c with
    | nil =>
      simp [List.isPrefixOf]
    | cons y c2 =>
      simp only [List.isPrefixOf, Bool.and_eq_true, beq_iff_eq, List.cons_append]
      rw [ih]
      constructor
      · rintro ⟨rfl, t, rfl⟩
        exact ⟨t, rfl⟩
      · rintro ⟨t, ht⟩
        injection ht with h1 h2
        exact ⟨h1.symm, t, h2⟩

/-- `List.isSuffixOf` as an existential decomposition. -/
lemma isSuffixOf_iff (b c : Str) : b.isSuffixOf c = true ↔ ∃ s, c = s ++ b := by
  unfold List.isSuffixOf
  rw [isPrefixOf_iff]
  constructor
  · rintro ⟨t, ht⟩
    refine ⟨t.reverse, ?_⟩
    have h2 := congrArg List.reverse ht
    simpa using h2
  · rintro ⟨s, rfl⟩
    exact ⟨s.reverse, by simp⟩

/-- The executable middle-wildcard check accepts exactly the decompositions
`a ++ w ++ b` with a word-character middle — the semantics of `^A\w*B$`. -/
lemma midMatchB_iff (a b c : Str) :
    midMatchB a b c = true ↔ ∃ w, c = a ++ w ++ b ∧ w.all isWordChar = true := by
  unfold midMatchB
  simp only [Bool.and_eq_true, decide_eq_true_eq]
  constructor
  · rintro ⟨⟨⟨hpre, hsuf⟩, hlen⟩, hword⟩
    obtain ⟨t, rfl⟩ := (isPrefixOf_iff a c).mp hpre
    obtain ⟨s, hs⟩ := (isSuffixOf_iff b (a ++ t)).mp hsuf
    have hlens := congrArg List.length hs
    simp only [List.length_append] at hlens hlen
    have hsl : a.length ≤ s.length := by omega
    have hdrop : t = s.drop a.length ++ b := by
      have h1 : (a ++ t).drop a.length = t := List.drop_left a t
      have h2 : (s ++ b).drop a.length = s.drop a.length ++ b :=
        List.drop_append_of_le_length hsl
      rw [hs, h2] at h1
      exact h1.symm
    refine ⟨s.drop a.length, ?_, ?_⟩
    · rw [hdrop]
      exact (List.append_assoc a (s.drop a.length) b).symm
    · have h3 : (a ++ t).drop a.length = t := List.drop_left a t
      have harith : (a ++ t).length - (a.length + b.length) = (s.drop a.length).length := by
        have h4 : t.length = (s.drop a.length).length + b.length := by
          rw [hdrop, List.length_append]
        simp only [List.length_append]
        omega
      rw [h3, harith, hdrop, List.take_left] at hword
      exact hword
  · rintro ⟨w, rfl, hword⟩
    refine ⟨⟨⟨?_, ?_⟩, ?_⟩, ?_⟩
    · exact (isPrefixOf_iff a _).mpr ⟨w ++ b, List.append_assoc a w b⟩
    · exact (isSuffixOf_iff b _).mpr ⟨a ++ w, rfl⟩
    · simp only [List.length_append]
      omega
    · have h3 : (a ++ w ++ b).drop a.length = w ++ b := by
        rw [List.append_assoc]
        exact List.drop_left a (w ++ b)
      have harith : (a ++ w ++ b).length - (a.length + b.length) = w.length := by
        simp only [List.length_append]
        omega
      rw [h3, harith, List.take_left]
      exact hword

/-- `splitAtFirstStar` splits exactly at an explicit first star. -/
lemma splitAtFirstStar_append (l r : Str) (hl : '*' ∉ l) :
    splitAtFirstStar (l ++ '*' :: r) = (l, r) := by
  induction l with
  | nil => simp [splitAtFirstStar]
  | cons x xs ih =>
    have hx : ¬(x = '*') := fun h => hl (by simp [h])
    have hxs : '*' ∉ xs := fun h => hl (by simp [h])
    simp [splitAtFirstStar, hx, ih hxs]

/-- `getLast?` looks past any left factor ending before an explicit cons. -/
lemma getLast?_append_cons (l : Str) (y : Char) (r : Str) :
    (l ++ y :: r).getLast? = (y :: r).getLast? := by
  induction l with
  | nil => rfl
  | cons a as ih =>
    rw [List.cons_append, ← ih]
    cases hcase : as ++ y :: r with
    | nil => exact absurd hcase (by simp)
    | cons b bs => exact List.getLast?_cons_cons

/-- A `getLast?` value is a member. -/
lemma mem_of_getLast?_eq (l : Str) (a : Char) (h : l.getLast? = some a) : a ∈ l := by
  induction l with
  | nil => simp at h
  | cons x xs ih =>
    cases xs with
    | nil =>
      simp at h
      simp [h]
    | cons b bs =>
      rw [List.getLast?_cons_cons] at h
      exact List.mem_cons_of_mem _ (ih h)

/-- On an uppercased pattern with a single inner star and word-character
halves, the matcher builds the `^A\w*B$` shape. -/
lemma patternOf_mid (uA uB : Str) (hA0 : uA ≠ []) (hB0 : uB ≠ [])
    (hA : uA.all isWordChar = true) (hB : uB.all isWordChar = true) :
    patternOf (uA ++ '*' :: uB) = TagPattern.mid uA uB := by
  have hstarA : '*' ∉ uA := by
    intro hm
    have hw := List.all_eq_true.mp hA _ hm
    exact absurd hw (by decide)
  have hmem : '*' ∈ uA ++ '*' :: uB := by simp
  obtain ⟨x, xs, rfl⟩ : ∃ x xs, uA = x :: xs := by
    cases uA with
    | nil => exact absurd rfl hA0
    | cons x xs => exact ⟨x, xs, rfl⟩
  obtain ⟨z, zs, rfl⟩ : ∃ z zs, uB = z :: zs := by
    cases uB with
    | nil => exact absurd rfl hB0
    | cons z zs => exact ⟨z, zs, rfl⟩
  have hhead : ¬((x :: xs ++ '*' :: z :: zs).head? = some '*') := by
    simp only [List.cons_append, List.head?_cons]
    intro hcase
    have hx : isWordChar x = true := List.all_eq_true.mp hA x (by simp)
    rw [Option.some.injEq] at hcase
    rw [hcase] at hx
    exact absurd hx (by decide)
  have hlast : ¬((x :: xs ++ '*' :: z :: zs).getLast? = some '*') := by
    rw [show (x :: xs) ++ '*' :: z :: zs = (x :: xs) ++ '*' :: (z :: zs) from rfl]
    rw [getLast?_append_cons (x :: xs) '*' (z :: zs), List.getLast?_cons_cons]
    intro hcase
    have hmem2 : '*' ∈ z :: zs := mem_of_getLast?_eq _ _ hcase
    have hw := List.all_eq_true.mp hB _ hmem2
    exact absurd hw (by decide)
  unfold patternOf
  rw [if_pos hmem, if_neg hhead, if_neg hlast,
    splitAtFirstStar_append (x :: xs) (z :: zs) hstarA]

/-- Uppercasing a pattern distributes over its inner star. -/
lemma upperStr_star_split (A B : Str) :
    upperStr (A ++ '*' :: B) = upperStr A ++ '*' :: upperStr B := by
  have hstar : Char.toUpper '*' = '*' := by decide
  simp [upperStr, hstar]

-- CLAIM C6 --------------------------------------------------------------------

/-- Claim C6 counterexample: for the pattern `A*B`, the candidate `A-B` does
start with `A` and end with `B` (shown by the explicit decomposition), yet
the matcher rejects it — the wildcard is compiled to `\w*`, and `'-'` is not
a word character. -/
theorem c6_counterexample :
    upperStr ("A-B".data) = upperStr ("A".data) ++ ['-'] ++ upperStr ("B".data) ∧
    wildcardMatches ("A*B".data) ("A-B".data) = false := by
  decide

/-- Claim C6 amended: for a pattern `A*B` with a single inner wildcard and
word-character halves (checked after case-normalisation, the domain the
plugin's `\w+` notetag parsing produces), the matcher accepts a candidate iff
its uppercasing decomposes as uppercased `A`, then a possibly empty run of
word characters, then uppercased `B` — not arbitrary characters in between. -/
theorem c6_amended_middle_wildcard (A B cand : Str)
    (hA0 : A ≠ []) (hB0 : B ≠ [])
    (hA : (upperStr A).all isWordChar = true) (hB : (upperStr B).all isWordChar = true) :
    wildcardMatches (A ++ '*' :: B) cand = true ↔
      ∃ w, upperStr cand = upperStr A ++ w ++ upperStr B ∧ w.all isWordChar = true := by
  unfold wildcardMatches
  rw [upperStr_star_split]
  have hA0' : upperStr A ≠ [] := fun h => hA0 (List.map_eq_nil_iff.mp h)
  have hB0' : upperStr B ≠ [] := fun h => hB0 (List.map_eq_nil_iff.mp h)
  rw [patternOf_mid (upperStr A) (upperStr B) hA0' hB0' hA hB]
  exact midMatchB_iff (upperStr A) (upperStr B) (upperStr cand)

/-- Witness for the amended claim C6: pattern `A*B` against candidate `AxB`. -/
theorem c6_amended_middle_witness :
    wildcardMatches (("A".data) ++ '*' :: ("B".data)) ("AxB".data) = true ↔
      ∃ w, upperStr ("AxB".data) = upperStr ("A".data) ++ w ++ upperStr ("B".data) ∧
        w.all isWordChar = true :=
  c6_amended_middle_wildcard ("A".data) ("B".data) ("AxB".data)
    (by decide) (by decide) (by decide) (by decide)
